import Mathlib

/-!
Verification of the `listalyze` list-numbering analyzer.

This file gives a shallow embedding of `src/listalyze.py` (version 1.0.0):
the numbering-scheme converters, the per-scheme character sets, the
`categorize_number` routine, and the main `listalyze` inference function,
together with theorems about them.  Python sets of the four scheme names
are represented by a structure of four membership flags; Python strings by
Lean `String`, with the character-level operations (`strip`, slicing,
`upper`) modelled directly on the underlying character list so that all
definitions evaluate by kernel reduction.
-/

namespace Listalyze

/-- The characters of Python `string.digits`. -/
def digits : List Char :=
  ['0', '1', '2', '3', '4', '5', '6', '7', '8', '9']

/-- The characters of Python `string.ascii_lowercase`. -/
def ascii_lowercase : List Char :=
  ['a', 'b', 'c', 'd', 'e', 'f', 'g', 'h', 'i', 'j', 'k', 'l', 'm',
   'n', 'o', 'p', 'q', 'r', 's', 't', 'u', 'v', 'w', 'x', 'y', 'z']

/-- The characters of Python `string.ascii_uppercase`. -/
def ascii_uppercase : List Char :=
  ['A', 'B', 'C', 'D', 'E', 'F', 'G', 'H', 'I', 'J', 'K', 'L', 'M',
   'N', 'O', 'P', 'Q', 'R', 'S', 'T', 'U', 'V', 'W', 'X', 'Y', 'Z']

/-- Converter `convert_decimal` (line 40): Python `int(number)`, which on the
digit-only strings that reach it is the base-10 left-to-right fold. -/
def convert_decimal (number : String) : Int :=
  number.data.foldl (fun result ch => result * 10 + ((ch.toNat : Int) - ('0'.toNat : Int))) 0

/-- Converter `convert_lower_alpha` (lines 43-48): bijective base-26 over lowercase
letters, `result = result * 26 + (ord ch - ord 'a' + 1)` left to right. -/
def convert_lower_alpha (number : String) : Int :=
  number.data.foldl (fun result ch => result * 26 + ((ch.toNat : Int) - ('a'.toNat : Int) + 1)) 0

/-- Converter `convert_upper_alpha` (lines 50-55): bijective base-26 over uppercase
letters, `result = result * 26 + (ord ch - ord 'A' + 1)` left to right. -/
def convert_upper_alpha (number : String) : Int :=
  number.data.foldl (fun result ch => result * 26 + ((ch.toNat : Int) - ('A'.toNat : Int) + 1)) 0

/-- Python's `unicode.upper()`, character-wise ASCII upcasing. -/
def pyUpper (s : String) : String :=
  String.mk (s.data.map Char.toUpper)

/-- Converter `convert_mixed_alpha` (lines 57-58): upcase, then `convert_upper_alpha`. -/
def convert_mixed_alpha (number : String) : Int :=
  convert_upper_alpha (pyUpper number)

/-- Table `scheme_character_sets` (lines 69-78), keyed by scheme name. -/
def scheme_character_sets (scheme : String) : List Char :=
  if scheme = "decimal" then digits
  else if scheme = "lower-alpha" then ascii_lowercase
  else if scheme = "upper-alpha" then ascii_uppercase
  else ascii_lowercase ++ ascii_uppercase

/-- Table `scheme_converters` (lines 60-65), keyed by scheme name. -/
def scheme_converters (scheme : String) : String → Int :=
  if scheme = "decimal" then convert_decimal
  else if scheme = "lower-alpha" then convert_lower_alpha
  else if scheme = "upper-alpha" then convert_upper_alpha
  else convert_mixed_alpha

/-- A subset of the four scheme names
`{decimal, lower-alpha, upper-alpha, mixed-alpha}`, as one membership flag
per name.  This represents the Python sets of scheme names flowing through
`listalyze`. -/
structure SchemeSet where
  decimal : Bool
  lowerAlpha : Bool
  upperAlpha : Bool
  mixedAlpha : Bool
deriving DecidableEq, Repr

/-- Constant `all_scheme_names` (line 79): every scheme name. -/
def all_scheme_names : SchemeSet :=
  ⟨true, true, true, true⟩

/-- Set intersection (`&=` at line 240), pointwise on membership flags. -/
def SchemeSet.inter (s t : SchemeSet) : SchemeSet :=
  ⟨s.decimal && t.decimal, s.lowerAlpha && t.lowerAlpha,
   s.upperAlpha && t.upperAlpha, s.mixedAlpha && t.mixedAlpha⟩

/-- Cardinality (Python `len`) of the scheme-name set. -/
def SchemeSet.card (s : SchemeSet) : Nat :=
  (if s.decimal then 1 else 0) + (if s.lowerAlpha then 1 else 0) +
    (if s.upperAlpha then 1 else 0) + (if s.mixedAlpha then 1 else 0)

/-- Whether every character of `number` lies in `charset`: a scheme
survives `categorize_number`'s inner loop (lines 99-102) exactly when
this holds for its character set. -/
def fitsCharset (charset : List Char) (number : String) : Bool :=
  number.data.all (fun ch => charset.contains ch)

/-- Routine `categorize_number` (lines 88-103): the set of scheme names whose
character set contains every character of `number`. -/
def categorize_number (number : String) : SchemeSet :=
  ⟨fitsCharset (scheme_character_sets "decimal") number,
   fitsCharset (scheme_character_sets "lower-alpha") number,
   fitsCharset (scheme_character_sets "upper-alpha") number,
   fitsCharset (scheme_character_sets "mixed-alpha") number⟩

/-- Python `unicode.strip()`: drop leading and trailing whitespace. -/
def pyStrip (s : String) : String :=
  String.mk (((s.data.dropWhile Char.isWhitespace).reverse.dropWhile Char.isWhitespace).reverse)

/-- Last character `number[-1]`, with an irrelevant default for the empty string (the code
only indexes nonempty strings). -/
def lastCharD (s : String) : Char :=
  s.data.getLastD ' '

/-- Slice `number[:-1]`: the string without its final character. -/
def dropLastStr (s : String) : String :=
  String.mk s.data.dropLast

/-- One step of the `require_dot` loop (lines 221-225): fail unless the
label has length at least 2 and ends in a dot, else strip the dot. -/
def requireDotStrip (number : String) : Option String :=
  if number.length < 2 ∨ lastCharD number ≠ '.' then none
  else some (dropLastStr number)

/-- One step of the optional-dot loop (lines 228-234): fail on the empty
label, strip a trailing dot when present, fail if that empties the label. -/
def stripOptionalDot (number : String) : Option String :=
  if number.length < 1 then none
  else
    let stripped := if lastCharD number = '.' then dropLastStr number else number
    if stripped = "" then none else some stripped

/-- Apply a fallible per-label step to every label, failing the whole list
as soon as one label fails (the early `return dont_recognize_scheme`). -/
def normalizeList (f : String → Option String) : List String → Option (List String)
  | [] => some []
  | x :: xs =>
    match f x with
    | none => none
    | some y =>
      match normalizeList f xs with
      | none => none
      | some ys => some (y :: ys)

/-- Lines 237-240: intersect the candidate sets of all labels, starting
from `all_scheme_names`. -/
def intersectAll (labels : List String) : SchemeSet :=
  labels.foldl (fun acc n => acc.inter (categorize_number n)) all_scheme_names

/-- Lines 243-245: when mixed-case support is off, discard `mixed-alpha`. -/
def mixedCaseFilter (mixed_case : Bool) (s : SchemeSet) : SchemeSet :=
  if mixed_case = false ∧ s.mixedAlpha = true then { s with mixedAlpha := false } else s

/-- Lines 249-250: drop `mixed-alpha` when another scheme also matches. -/
def tieBreak (s : SchemeSet) : SchemeSet :=
  if 1 < s.card ∧ s.mixedAlpha = true then { s with mixedAlpha := false } else s

/-- Lines 254-258: a scheme is resolved exactly when one candidate is left;
`list(number_schemes)[0]` then extracts that unique name. -/
def SchemeSet.resolved (s : SchemeSet) : Option String :=
  if s.card = 1 then
    if s.decimal then some "decimal"
    else if s.lowerAlpha then some "lower-alpha"
    else if s.upperAlpha then some "upper-alpha"
    else some "mixed-alpha"
  else none

/-- The whole scheme-resolution stage: intersection result through the
mixed-case filter, the tie-break, and uniqueness extraction. -/
def resolveScheme (mixed_case : Bool) (s : SchemeSet) : Option String :=
  (tieBreak (mixedCaseFilter mixed_case s)).resolved

/-- The default-order flag of the conversion loop (lines 260-264), checking
values against 1-based positions from position `pos` onward. -/
def defaultOrderFrom (pos : Nat) : List Int → Bool
  | [] => true
  | v :: vs => (v == (pos : Int) + 1) && defaultOrderFrom (pos + 1) vs

/-- The conversion loop (lines 260-264): converted values plus the
default-order flag. -/
def convertAll (converter : String → Int) (labels : List String) : List Int × Bool :=
  (labels.map converter, defaultOrderFrom 0 (labels.map converter))

/-- An element of the returned `value_list`: the raw label strings when no
scheme is recognized, converted integers otherwise. -/
inductive Value where
  | str (s : String)
  | int (n : Int)
deriving DecidableEq, Repr

/-- Function `listalyze` (lines 106-271) on a list of well-typed text labels.
Note `raw_numbers_list` is copied at line 204, before the strip loop at
line 217, so the fallback triple holds the original unstripped labels. -/
def listalyze (numbers : List String) (require_dot mixed_case : Bool) :
    Option String × List Value × Bool :=
  match normalizeList (if require_dot then requireDotStrip else stripOptionalDot)
      (numbers.map pyStrip) with
  | none => (none, numbers.map Value.str, false)
  | some stripped =>
    match resolveScheme mixed_case (intersectAll stripped) with
    | none => (none, numbers.map Value.str, false)
    | some scheme =>
      (some (if scheme = "mixed-alpha" then "upper-alpha" else scheme),
       (convertAll (scheme_converters scheme) stripped).1.map Value.int,
       (convertAll (scheme_converters scheme) stripped).2)

/-- An element produced by the `numbers` iterable: a unicode string, or a
value of some other Python type (recorded by its type name). -/
inductive PyObj where
  | ustr (s : String)
  | other (typeName : String)
deriving DecidableEq, Repr

/-- The `numbers` argument: an iterable of elements, or a non-iterable
value of some type. -/
inductive PyInput where
  | iter (objs : List PyObj)
  | notIterable (typeName : String)
deriving DecidableEq, Repr

/-- The `TypeError`s `listalyze` raises: non-iterable argument (lines
197-201), or a non-unicode element identified by its type name and its
index (lines 211-216). -/
inductive PyError where
  | notIterableError (typeName : String)
  | notUnicodeError (typeName : String) (index : Nat)
deriving DecidableEq, Repr

/-- The type-checking loop (lines 211-216) from index `i` on: stop with a
`TypeError` at the first non-unicode element. -/
def typeCheckFrom : Nat → List PyObj → Except PyError (List String)
  | _, [] => Except.ok []
  | i, PyObj.ustr s :: rest => (typeCheckFrom (i + 1) rest).map (fun tl => s :: tl)
  | i, PyObj.other t :: _ => Except.error (PyError.notUnicodeError t i)

/-- Function `listalyze` including its dynamic type checks: reject a non-iterable
argument and non-unicode elements, then run the analysis. -/
def listalyzePy (numbers : PyInput) (require_dot mixed_case : Bool) :
    Except PyError (Option String × List Value × Bool) :=
  match numbers with
  | PyInput.notIterable t => Except.error (PyError.notIterableError t)
  | PyInput.iter objs =>
    (typeCheckFrom 0 objs).map (fun strs => listalyze strs require_dot mixed_case)

/-- The 28 labels a, b, ..., z, aa, ab. -/
def alphabet28 : List String :=
  ["a", "b", "c", "d", "e", "f", "g", "h", "i", "j", "k", "l", "m",
   "n", "o", "p", "q", "r", "s", "t", "u", "v", "w", "x", "y", "z", "aa", "ab"]


theorem foldl_inter_flag (f : SchemeSet → Bool) (cs : List Char)
    (hf : ∀ s t, f (s.inter t) = (f s && f t))
    (hcat : ∀ n, f (categorize_number n) = fitsCharset cs n) :
    ∀ (l : List String) (acc : SchemeSet),
      f (l.foldl (fun a n => a.inter (categorize_number n)) acc)
        = (f acc && l.all (fun s => fitsCharset cs s)) := by
  intro l
  induction l with
  | nil => intro acc; simp
  | cons x xs ih =>
    intro acc
    simp only [List.foldl_cons, List.all_cons]
    rw [ih, hf, hcat, Bool.and_assoc]

theorem intersectAll_decimal (l : List String) :
    (intersectAll l).decimal = l.all (fun s => fitsCharset digits s) := by
  have h := foldl_inter_flag SchemeSet.decimal digits (fun s t => rfl) (fun n => rfl) l all_scheme_names
  simpa [intersectAll, all_scheme_names] using h

theorem intersectAll_lower (l : List String) :
    (intersectAll l).lowerAlpha = l.all (fun s => fitsCharset ascii_lowercase s) := by
  have h := foldl_inter_flag SchemeSet.lowerAlpha ascii_lowercase (fun s t => rfl) (fun n => rfl) l all_scheme_names
  simpa [intersectAll, all_scheme_names] using h

theorem intersectAll_upper (l : List String) :
    (intersectAll l).upperAlpha = l.all (fun s => fitsCharset ascii_uppercase s) := by
  have h := foldl_inter_flag SchemeSet.upperAlpha ascii_uppercase (fun s t => rfl) (fun n => rfl) l all_scheme_names
  simpa [intersectAll, all_scheme_names] using h

theorem intersectAll_mixed (l : List String) :
    (intersectAll l).mixedAlpha = l.all (fun s => fitsCharset (ascii_lowercase ++ ascii_uppercase) s) := by
  have h := foldl_inter_flag SchemeSet.mixedAlpha (ascii_lowercase ++ ascii_uppercase) (fun s t => rfl) (fun n => rfl) l all_scheme_names
  simpa [intersectAll, all_scheme_names] using h


theorem string_ne_empty_of_data {s : String} (h : s.data ≠ []) : s ≠ "" := by
  intro he
  apply h
  have h2 : s.data = ("" : String).data := congrArg String.data he
  simpa using h2

theorem requireDotStrip_some {s t : String} (h : requireDotStrip s = some t) :
    t = dropLastStr s ∧ t ≠ "" ∧ 2 ≤ s.length := by
  unfold requireDotStrip at h
  split at h
  · exact absurd h (by simp)
  · rename_i hc
    push_neg at hc
    obtain ⟨hlen, _⟩ := hc
    have hlen2 : 2 ≤ s.length := by omega
    have ht : t = dropLastStr s := by
      injection h with h
      exact h.symm
    refine ⟨ht, ?_, hlen2⟩
    apply string_ne_empty_of_data
    subst ht
    intro hd
    have h0 : s.data.dropLast = [] := hd
    have h1 := congrArg List.length h0
    rw [List.length_dropLast] at h1
    have hsl : s.data.length = s.length := rfl
    simp at h1
    omega

theorem stripOptionalDot_some {s t : String} (h : stripOptionalDot s = some t) :
    t ≠ "" := by
  unfold stripOptionalDot at h
  split_ifs at h <;> simp_all
  · exact fun he => h.1 (h.2.trans he)
  · exact fun he => h.1 (h.2.trans he)

theorem normalizeList_none {f : String → Option String} :
    ∀ (ls : List String), (∃ s ∈ ls, f s = none) → normalizeList f ls = none := by
  intro ls
  induction ls with
  | nil => rintro ⟨s, hs, _⟩; exact absurd hs (by simp)
  | cons x xs ih =>
    rintro ⟨s, hs, hfs⟩
    unfold normalizeList
    rcases List.mem_cons.mp hs with h | h
    · subst h; rw [hfs]
    · cases hfx : f x with
      | none => rfl
      | some y => rw [ih ⟨s, h, hfs⟩]

theorem normalizeList_some_mem {f : String → Option String} :
    ∀ {ls ls' : List String}, normalizeList f ls = some ls' →
      ∀ t ∈ ls', ∃ s ∈ ls, f s = some t := by
  intro ls
  induction ls with
  | nil =>
    intro ls' h t ht
    unfold normalizeList at h
    injection h with h
    subst h
    exact absurd ht (by simp)
  | cons x xs ih =>
    intro ls' h t ht
    unfold normalizeList at h
    cases hfx : f x with
    | none => rw [hfx] at h; exact absurd h (by simp)
    | some y =>
      rw [hfx] at h
      cases hxs : normalizeList f xs with
      | none => rw [hxs] at h; exact absurd h (by simp)
      | some ys =>
        rw [hxs] at h
        injection h with h
        subst h
        rcases List.mem_cons.mp ht with h | h
        · exact ⟨x, by simp, by rw [hfx, h]⟩
        · obtain ⟨s, hs, hfs⟩ := ih hxs t h
          exact ⟨s, by simp [hs], hfs⟩

theorem normalizeList_some_map {f : String → Option String} {g : String → String}
    (hf : ∀ s t, f s = some t → t = g s) :
    ∀ {ls ls' : List String}, normalizeList f ls = some ls' → ls' = ls.map g := by
  intro ls
  induction ls with
  | nil =>
    intro ls' h
    unfold normalizeList at h
    injection h with h
    subst h
    rfl
  | cons x xs ih =>
    intro ls' h
    unfold normalizeList at h
    cases hfx : f x with
    | none => rw [hfx] at h; exact absurd h (by simp)
    | some y =>
      rw [hfx] at h
      cases hxs : normalizeList f xs with
      | none => rw [hxs] at h; exact absurd h (by simp)
      | some ys =>
        rw [hxs] at h
        injection h with h
        subst h
        simp only [List.map_cons]
        rw [hf x y hfx, ih hxs]



theorem fitsCharset_mem {cs : List Char} {s : String} (h : fitsCharset cs s = true) :
    ∀ c ∈ s.data, c ∈ cs := by
  intro c hc
  have := (List.all_eq_true.mp h) c hc
  simpa using this

theorem fitsCharset_false_of_head {cs : List Char} {s : String} {c : Char}
    (hc : c ∈ s.data) (hmem : c ∉ cs) : fitsCharset cs s = false := by
  by_contra hne
  have : fitsCharset cs s = true := by
    cases hb : fitsCharset cs s
    · exact absurd hb hne
    · rfl
  exact hmem (fitsCharset_mem this c hc)

theorem foldl_base26_ge_one (idx : Char → Int) :
    ∀ (cs : List Char) (acc : Int), 1 ≤ acc → (∀ c ∈ cs, 1 ≤ idx c) →
      1 ≤ cs.foldl (fun r c => r * 26 + idx c) acc := by
  intro cs
  induction cs with
  | nil => intro acc h _; exact h
  | cons c cs ih =>
    intro acc hacc hall
    simp only [List.foldl_cons]
    apply ih
    · have h1 : 1 ≤ idx c := hall c (by simp)
      nlinarith
    · intro c' hc'
      exact hall c' (by simp [hc'])

theorem foldl_base10_nonneg :
    ∀ (cs : List Char) (acc : Int), 0 ≤ acc →
      (∀ c ∈ cs, 0 ≤ (c.toNat : Int) - ('0'.toNat : Int)) →
      0 ≤ cs.foldl (fun r c => r * 10 + ((c.toNat : Int) - ('0'.toNat : Int))) acc := by
  intro cs
  induction cs with
  | nil => intro acc h _; exact h
  | cons c cs ih =>
    intro acc hacc hall
    simp only [List.foldl_cons]
    apply ih
    · have h1 : 0 ≤ (c.toNat : Int) - ('0'.toNat : Int) := hall c (by simp)
      nlinarith
    · intro c' hc'
      exact hall c' (by simp [hc'])

theorem lower_char_idx : ∀ c ∈ ascii_lowercase, 1 ≤ (c.toNat : Int) - ('a'.toNat : Int) + 1 := by
  decide

theorem upper_char_idx : ∀ c ∈ ascii_uppercase, 1 ≤ (c.toNat : Int) - ('A'.toNat : Int) + 1 := by
  decide

theorem digit_char_idx : ∀ c ∈ digits, 0 ≤ (c.toNat : Int) - ('0'.toNat : Int) := by
  decide

theorem toUpper_into_upper : ∀ c ∈ ascii_lowercase ++ ascii_uppercase, Char.toUpper c ∈ ascii_uppercase := by
  decide

theorem convert_decimal_nonneg {s : String} (h : fitsCharset digits s = true) :
    0 ≤ convert_decimal s := by
  apply foldl_base10_nonneg s.data 0 le_rfl
  intro c hc
  exact digit_char_idx c (fitsCharset_mem h c hc)

theorem convert_lower_alpha_pos {s : String} (hne : s ≠ "")
    (h : fitsCharset ascii_lowercase s = true) : 1 ≤ convert_lower_alpha s := by
  have hd : s.data ≠ [] := by
    intro hd
    exact hne (by apply String.ext; simpa using hd)
  cases hs : s.data with
  | nil => exact absurd hs hd
  | cons c cs =>
    unfold convert_lower_alpha
    rw [hs]
    simp only [List.foldl_cons, zero_mul, zero_add]
    apply foldl_base26_ge_one
    · exact lower_char_idx c (fitsCharset_mem h c (by rw [hs]; simp))
    · intro c' hc'
      exact lower_char_idx c' (fitsCharset_mem h c' (by rw [hs]; simp [hc']))

theorem convert_upper_alpha_pos {s : String} (hne : s ≠ "")
    (h : fitsCharset ascii_uppercase s = true) : 1 ≤ convert_upper_alpha s := by
  have hd : s.data ≠ [] := by
    intro hd
    exact hne (by apply String.ext; simpa using hd)
  cases hs : s.data with
  | nil => exact absurd hs hd
  | cons c cs =>
    unfold convert_upper_alpha
    rw [hs]
    simp only [List.foldl_cons, zero_mul, zero_add]
    apply foldl_base26_ge_one
    · exact upper_char_idx c (fitsCharset_mem h c (by rw [hs]; simp))
    · intro c' hc'
      exact upper_char_idx c' (fitsCharset_mem h c' (by rw [hs]; simp [hc']))

theorem convert_mixed_alpha_pos {s : String} (hne : s ≠ "")
    (h : fitsCharset (ascii_lowercase ++ ascii_uppercase) s = true) :
    1 ≤ convert_mixed_alpha s := by
  unfold convert_mixed_alpha
  apply convert_upper_alpha_pos
  · intro he
    apply hne
    apply String.ext
    have h2 : s.data.map Char.toUpper = [] := congrArg String.data he
    simpa using List.map_eq_nil_iff.mp h2
  · unfold fitsCharset
    rw [List.all_eq_true]
    intro c hc
    have hc2 : c ∈ s.data.map Char.toUpper := hc
    obtain ⟨c0, hc0, hc0u⟩ := List.mem_map.mp hc2
    subst hc0u
    have := toUpper_into_upper c0 (fitsCharset_mem h c0 hc0)
    simpa using this



theorem mixedCaseFilter_decimal (mc : Bool) (s : SchemeSet) :
    (mixedCaseFilter mc s).decimal = s.decimal := by
  unfold mixedCaseFilter; split <;> rfl

theorem tieBreak_decimal (s : SchemeSet) : (tieBreak s).decimal = s.decimal := by
  unfold tieBreak; split <;> rfl

theorem mixedCaseFilter_lower (mc : Bool) (s : SchemeSet) :
    (mixedCaseFilter mc s).lowerAlpha = s.lowerAlpha := by
  unfold mixedCaseFilter; split <;> rfl

theorem tieBreak_lower (s : SchemeSet) : (tieBreak s).lowerAlpha = s.lowerAlpha := by
  unfold tieBreak; split <;> rfl

theorem mixedCaseFilter_upper (mc : Bool) (s : SchemeSet) :
    (mixedCaseFilter mc s).upperAlpha = s.upperAlpha := by
  unfold mixedCaseFilter; split <;> rfl

theorem tieBreak_upper (s : SchemeSet) : (tieBreak s).upperAlpha = s.upperAlpha := by
  unfold tieBreak; split <;> rfl

theorem mixedCaseFilter_mixed_le {mc : Bool} {s : SchemeSet}
    (h : (mixedCaseFilter mc s).mixedAlpha = true) : s.mixedAlpha = true := by
  unfold mixedCaseFilter at h
  split at h
  · exact absurd h (by simp)
  · exact h

theorem tieBreak_mixed_le {s : SchemeSet}
    (h : (tieBreak s).mixedAlpha = true) : s.mixedAlpha = true := by
  unfold tieBreak at h
  split at h
  · exact absurd h (by simp)
  · exact h

theorem resolved_some {s : SchemeSet} {name : String} (h : s.resolved = some name) :
    (name = "decimal" ∧ s.decimal = true) ∨
    (name = "lower-alpha" ∧ s.lowerAlpha = true) ∨
    (name = "upper-alpha" ∧ s.upperAlpha = true) ∨
    (name = "mixed-alpha" ∧ s.mixedAlpha = true) := by
  rcases s with ⟨d, lo, up, mx⟩
  cases d <;> cases lo <;> cases up <;> cases mx <;>
    simp_all [SchemeSet.resolved, SchemeSet.card]

theorem resolveScheme_some {mc : Bool} {s : SchemeSet} {name : String}
    (h : resolveScheme mc s = some name) :
    (name = "decimal" ∧ s.decimal = true) ∨
    (name = "lower-alpha" ∧ s.lowerAlpha = true) ∨
    (name = "upper-alpha" ∧ s.upperAlpha = true) ∨
    (name = "mixed-alpha" ∧ s.mixedAlpha = true) := by
  unfold resolveScheme at h
  have h4 := resolved_some h
  rcases h4 with ⟨h1, h2⟩ | ⟨h1, h2⟩ | ⟨h1, h2⟩ | ⟨h1, h2⟩
  · rw [tieBreak_decimal, mixedCaseFilter_decimal] at h2
    exact Or.inl ⟨h1, h2⟩
  · rw [tieBreak_lower, mixedCaseFilter_lower] at h2
    exact Or.inr (Or.inl ⟨h1, h2⟩)
  · rw [tieBreak_upper, mixedCaseFilter_upper] at h2
    exact Or.inr (Or.inr (Or.inl ⟨h1, h2⟩))
  · exact Or.inr (Or.inr (Or.inr ⟨h1, mixedCaseFilter_mixed_le (tieBreak_mixed_le h2)⟩))



theorem listalyze_norm_none {numbers : List String} {rd mc : Bool}
    (h : normalizeList (if rd then requireDotStrip else stripOptionalDot)
        (numbers.map pyStrip) = none) :
    listalyze numbers rd mc = (none, numbers.map Value.str, false) := by
  unfold listalyze
  rw [h]

theorem listalyze_resolve_none {numbers stripped : List String} {rd mc : Bool}
    (hn : normalizeList (if rd then requireDotStrip else stripOptionalDot)
        (numbers.map pyStrip) = some stripped)
    (hr : resolveScheme mc (intersectAll stripped) = none) :
    listalyze numbers rd mc = (none, numbers.map Value.str, false) := by
  unfold listalyze
  rw [hn]
  simp only []
  rw [hr]

theorem listalyze_resolve_some {numbers stripped : List String} {rd mc : Bool} {scheme : String}
    (hn : normalizeList (if rd then requireDotStrip else stripOptionalDot)
        (numbers.map pyStrip) = some stripped)
    (hr : resolveScheme mc (intersectAll stripped) = some scheme) :
    listalyze numbers rd mc =
      (some (if scheme = "mixed-alpha" then "upper-alpha" else scheme),
       (stripped.map (scheme_converters scheme)).map Value.int,
       defaultOrderFrom 0 (stripped.map (scheme_converters scheme))) := by
  unfold listalyze
  rw [hn]
  simp only []
  rw [hr]
  rfl

theorem listalyze_inv {numbers : List String} {rd mc : Bool} {scheme : String}
    {vals : List Value} {d : Bool}
    (h : listalyze numbers rd mc = (some scheme, vals, d)) :
    ∃ stripped rawScheme,
      normalizeList (if rd then requireDotStrip else stripOptionalDot)
          (numbers.map pyStrip) = some stripped ∧
      resolveScheme mc (intersectAll stripped) = some rawScheme ∧
      scheme = (if rawScheme = "mixed-alpha" then "upper-alpha" else rawScheme) ∧
      vals = (stripped.map (scheme_converters rawScheme)).map Value.int ∧
      d = defaultOrderFrom 0 (stripped.map (scheme_converters rawScheme)) := by
  cases hn : normalizeList (if rd then requireDotStrip else stripOptionalDot)
      (numbers.map pyStrip) with
  | none =>
    rw [listalyze_norm_none hn] at h
    exact absurd (congrArg Prod.fst h) (by simp)
  | some stripped =>
    cases hr : resolveScheme mc (intersectAll stripped) with
    | none =>
      rw [listalyze_resolve_none hn hr] at h
      exact absurd (congrArg Prod.fst h) (by simp)
    | some rawScheme =>
      rw [listalyze_resolve_some hn hr] at h
      simp only [Prod.mk.injEq, Option.some.injEq] at h
      obtain ⟨h1, h2, h3⟩ := h
      exact ⟨stripped, rawScheme, rfl, hr, h1.symm, h2.symm, h3.symm⟩



theorem defaultOrderFrom_iff :
    ∀ (vs : List Int) (p : Nat),
      defaultOrderFrom p vs = true ↔
        vs = (List.range vs.length).map (fun i => ((p + i : Nat) : Int) + 1) := by
  intro vs
  induction vs with
  | nil => intro p; simp [defaultOrderFrom]
  | cons v tl ih =>
    intro p
    unfold defaultOrderFrom
    rw [Bool.and_eq_true]
    constructor
    · rintro ⟨h1, h2⟩
      have hv : v = (p : Int) + 1 := by simpa using h1
      have htl := (ih (p + 1)).mp h2
      simp only [List.length_cons, List.range_succ_eq_map, List.map_cons, List.map_map,
        List.cons.injEq]
      constructor
      · simpa using hv
      · rw [htl, List.length_map, List.length_range]
        apply List.map_congr_left
        intro i _
        simp only [Function.comp]
        push_cast
        ring
    · intro h
      simp only [List.length_cons, List.range_succ_eq_map, List.map_cons, List.map_map,
        List.cons.injEq] at h
      obtain ⟨h1, h2⟩ := h
      constructor
      · simp [h1]
      · apply (ih (p + 1)).mpr
        rw [h2, List.length_map, List.length_range]
        apply List.map_congr_left
        intro i _
        simp only [Function.comp]
        push_cast
        ring

theorem typeCheckFrom_all_ustr :
    ∀ (strs : List String) (i : Nat),
      typeCheckFrom i (strs.map PyObj.ustr) = Except.ok strs := by
  intro strs
  induction strs with
  | nil => intro i; rfl
  | cons s tl ih =>
    intro i
    simp only [List.map_cons]
    unfold typeCheckFrom
    rw [ih (i + 1)]
    rfl

theorem typeCheckFrom_first_bad :
    ∀ (pre : List String) (t : String) (post : List PyObj) (i : Nat),
      typeCheckFrom i (pre.map PyObj.ustr ++ PyObj.other t :: post)
        = Except.error (PyError.notUnicodeError t (i + pre.length)) := by
  intro pre
  induction pre with
  | nil => intro t post i; simp [typeCheckFrom]
  | cons s tl ih =>
    intro t post i
    simp only [List.map_cons, List.cons_append]
    unfold typeCheckFrom
    rw [ih t post (i + 1)]
    simp only [Except.map, List.length_cons]
    congr 2
    omega



theorem data_ne_empty {s : String} (h : s ≠ "") : s.data ≠ [] := by
  intro hd
  exact h (by apply String.ext; simpa using hd)

theorem all_false_of_mem {α : Type} {p : α → Bool} {l : List α} {a : α}
    (ha : a ∈ l) (hpa : p a = false) : l.all p = false := by
  cases h : l.all p
  · rfl
  · have h2 := List.all_eq_true.mp h a ha
    rw [hpa] at h2
    exact absurd h2 (by simp)

theorem SchemeSet.eq_of_flags {s : SchemeSet} {a b c e : Bool}
    (h1 : s.decimal = a) (h2 : s.lowerAlpha = b) (h3 : s.upperAlpha = c)
    (h4 : s.mixedAlpha = e) : s = ⟨a, b, c, e⟩ := by
  rcases s with ⟨d', lo', up', mx'⟩
  simp only at h1 h2 h3 h4
  rw [h1, h2, h3, h4]

theorem digits_not_alpha : ∀ c ∈ digits, c ∉ ascii_lowercase ++ ascii_uppercase := by
  decide

theorem alpha_not_digits : ∀ c ∈ ascii_lowercase ++ ascii_uppercase, c ∉ digits := by
  decide

theorem vals_bound {stripped : List String} {conv : String → Int} {b : Int}
    (hb : ∀ s ∈ stripped, b ≤ conv s) :
    ∀ v ∈ (stripped.map conv).map Value.int, ∃ n : Int, v = Value.int n ∧ b ≤ n := by
  intro v hv
  obtain ⟨n, hn, hni⟩ := List.mem_map.mp hv
  obtain ⟨s, hsm, hsc⟩ := List.mem_map.mp hn
  exact ⟨n, hni.symm, hsc ▸ hb s hsm⟩

theorem stripped_ne_empty {numbers stripped : List String} {rd : Bool}
    (hn : normalizeList (if rd then requireDotStrip else stripOptionalDot)
        (numbers.map pyStrip) = some stripped) :
    ∀ s ∈ stripped, s ≠ "" := by
  intro s hs
  obtain ⟨s0, _, hf⟩ := normalizeList_some_mem hn s hs
  cases rd with
  | true => exact (requireDotStrip_some (by simpa using hf)).2.1
  | false => exact stripOptionalDot_some (by simpa using hf)



/-- Claim C1, counterexample: with `require_dot = True` the input
`[u' 1 ']` fails dot enforcement and the returned value list is the
original label with its whitespace intact, not the trimmed `u'1'` the
claim describes (the fallback list is copied before the strip loop). -/
theorem C1_counterexample :
    listalyze [" 1 "] true false = (none, [Value.str " 1 "], false) ∧
    pyStrip " 1 " = "1" ∧ Value.str " 1 " ≠ Value.str "1" :=
  ⟨by decide, by decide, by decide⟩

/-- Claim C1 (amended): on every data-recognition failure the returned
value list is the original labels unmodified (not whitespace-trimmed, not
dot-stripped), in the same length and order as the input; the concrete
conjunct shows a failing input whose labels carry whitespace. -/
theorem C1_fallback_unmodified :
    (∀ (numbers : List String) (rd mc : Bool),
        (listalyze numbers rd mc).1 = none →
        (listalyze numbers rd mc).2.1 = numbers.map Value.str) ∧
    listalyze [" b "] true false = (none, [Value.str " b "], false) := by
  constructor
  · intro numbers rd mc h
    cases hn : normalizeList (if rd then requireDotStrip else stripOptionalDot)
        (numbers.map pyStrip) with
    | none => rw [listalyze_norm_none hn]
    | some stripped =>
      cases hr : resolveScheme mc (intersectAll stripped) with
      | none => rw [listalyze_resolve_none hn hr]
      | some scheme =>
        rw [listalyze_resolve_some hn hr] at h
        simp at h
  · decide

/-- Claim C2, counterexample: the label `u'0.'` resolves as `decimal`
and converts to the ordinal 0, which is not greater than or equal to 1. -/
theorem C2_counterexample :
    listalyze ["0."] true false = (some "decimal", [Value.int 0], false) ∧
    ¬ (1 ≤ (0 : Int)) :=
  ⟨by decide, by decide⟩

/-- Claim C3: the alphabetic converters are the left-to-right bijective
base-26 fold `value * 26 + letter_index_from_1`, with `z` mapping to 26
and `aa` to 27, and the 28-label sequence a, b, ..., z, aa, ab analyzed
with `require_dot = False` converts to 1, ..., 28 with default order. -/
theorem C3_bijective_base26 :
    (∀ s : String, convert_lower_alpha s
        = s.data.foldl (fun v c => v * 26 + ((c.toNat : Int) - ('a'.toNat : Int) + 1)) 0) ∧
    (∀ s : String, convert_upper_alpha s
        = s.data.foldl (fun v c => v * 26 + ((c.toNat : Int) - ('A'.toNat : Int) + 1)) 0) ∧
    convert_lower_alpha "z" = 26 ∧ convert_lower_alpha "aa" = 27 ∧
    convert_upper_alpha "Z" = 26 ∧ convert_upper_alpha "AA" = 27 ∧
    listalyze alphabet28 false false
      = (some "lower-alpha", (List.range 28).map (fun (i : Nat) => Value.int ((i : Int) + 1)), true) :=
  ⟨fun _ => rfl, fun _ => rfl, by decide, by decide, by decide, by decide, by decide⟩

/-- Claim C4: `[u'a.', u'B.']` is rejected with `mixed_case = False` and
resolves to `upper-alpha` with values 1, 2 with `mixed_case = True`; and
no call of `listalyze` ever reports `mixed-alpha` as its numbering type. -/
theorem C4_mixed_case_coercion :
    listalyze ["a.", "B."] true false = (none, [Value.str "a.", Value.str "B."], false) ∧
    listalyze ["a.", "B."] true true = (some "upper-alpha", [Value.int 1, Value.int 2], true) ∧
    (∀ (numbers : List String) (rd mc : Bool),
        ¬ (listalyze numbers rd mc).1 = some "mixed-alpha") := by
  refine ⟨by decide, by decide, ?_⟩
  intro numbers rd mc h
  cases hn : normalizeList (if rd then requireDotStrip else stripOptionalDot)
      (numbers.map pyStrip) with
  | none => rw [listalyze_norm_none hn] at h; simp at h
  | some stripped =>
    cases hr : resolveScheme mc (intersectAll stripped) with
    | none => rw [listalyze_resolve_none hn hr] at h; simp at h
    | some raw =>
      rw [listalyze_resolve_some hn hr] at h
      simp only [Option.some.injEq] at h
      by_cases hm : raw = "mixed-alpha"
      · rw [if_pos hm] at h
        exact absurd h (by decide)
      · rw [if_neg hm] at h
        exact hm h


/-- Claim C5: when, after the mixed-case filter, more than one candidate
scheme survives and `mixed-alpha` is among them, `mixed-alpha` is removed;
a scheme is resolved exactly when a single candidate remains; and an
all-lowercase sequence with `mixed_case = True` resolves to `lower-alpha`. -/
theorem C5_tie_break_deterministic :
    (∀ s : SchemeSet, 1 < s.card → s.mixedAlpha = true →
        tieBreak s = { s with mixedAlpha := false }) ∧
    (∀ (mc : Bool) (s : SchemeSet),
        (resolveScheme mc s).isSome = true ↔ (tieBreak (mixedCaseFilter mc s)).card = 1) ∧
    listalyze ["a.", "b."] true true = (some "lower-alpha", [Value.int 1, Value.int 2], true) := by
  refine ⟨?_, ?_, by decide⟩
  · intro s h1 h2
    unfold tieBreak
    rw [if_pos ⟨h1, h2⟩]
  · intro mc s
    rcases s with ⟨d, lo, up, mx⟩
    cases mc <;> cases d <;> cases lo <;> cases up <;> cases mx <;> decide

/-- Claim C6: the decimal character set is disjoint from the alphabetic
ones, so any sequence holding both a digits-only label and a letters-only
label resolves no scheme, for either value of `mixed_case`; the six
concrete conjuncts are the spec's examples. -/
theorem C6_mixed_scheme_inputs_fail :
    (∀ c ∈ digits, c ∉ ascii_lowercase ++ ascii_uppercase) ∧
    (∀ c ∈ ascii_lowercase ++ ascii_uppercase, c ∉ digits) ∧
    (∀ (labels : List String) (mc : Bool),
        (∃ a ∈ labels, a ≠ "" ∧ fitsCharset digits a = true) →
        (∃ b ∈ labels, b ≠ "" ∧ fitsCharset (ascii_lowercase ++ ascii_uppercase) b = true) →
        resolveScheme mc (intersectAll labels) = none) ∧
    listalyze ["1.", "a."] true false = (none, [Value.str "1.", Value.str "a."], false) ∧
    listalyze ["1.", "a."] true true = (none, [Value.str "1.", Value.str "a."], false) ∧
    listalyze ["1.", "A."] true false = (none, [Value.str "1.", Value.str "A."], false) ∧
    listalyze ["1.", "A."] true true = (none, [Value.str "1.", Value.str "A."], false) ∧
    listalyze ["a.", "1."] true false = (none, [Value.str "a.", Value.str "1."], false) ∧
    listalyze ["a.", "1."] true true = (none, [Value.str "a.", Value.str "1."], false) := by
  refine ⟨digits_not_alpha, alpha_not_digits, ?_, by decide, by decide, by decide,
    by decide, by decide, by decide⟩
  rintro labels mc ⟨a, hamem, hane, hafits⟩ ⟨b, hbmem, hbne, hbfits⟩
  have hadata := data_ne_empty hane
  have hbdata := data_ne_empty hbne
  cases hda : a.data with
  | nil => exact absurd hda hadata
  | cons ca csa =>
    cases hdb : b.data with
    | nil => exact absurd hdb hbdata
    | cons cb csb =>
      have hca : ca ∈ a.data := by rw [hda]; simp
      have hcb : cb ∈ b.data := by rw [hdb]; simp
      have hcad : ca ∈ digits := fitsCharset_mem hafits ca hca
      have hcbm : cb ∈ ascii_lowercase ++ ascii_uppercase := fitsCharset_mem hbfits cb hcb
      have hca_nm : ca ∉ ascii_lowercase ++ ascii_uppercase := digits_not_alpha ca hcad
      have hca_nl : ca ∉ ascii_lowercase := fun hc => hca_nm (List.mem_append_left _ hc)
      have hca_nu : ca ∉ ascii_uppercase := fun hc => hca_nm (List.mem_append_right _ hc)
      have hcb_nd : cb ∉ digits := alpha_not_digits cb hcbm
      have hdec : (intersectAll labels).decimal = false := by
        rw [intersectAll_decimal]
        exact all_false_of_mem hbmem (fitsCharset_false_of_head hcb hcb_nd)
      have hlow : (intersectAll labels).lowerAlpha = false := by
        rw [intersectAll_lower]
        exact all_false_of_mem hamem (fitsCharset_false_of_head hca hca_nl)
      have hup : (intersectAll labels).upperAlpha = false := by
        rw [intersectAll_upper]
        exact all_false_of_mem hamem (fitsCharset_false_of_head hca hca_nu)
      have hmix : (intersectAll labels).mixedAlpha = false := by
        rw [intersectAll_mixed]
        exact all_false_of_mem hamem (fitsCharset_false_of_head hca hca_nm)
      rw [SchemeSet.eq_of_flags hdec hlow hup hmix]
      cases mc <;> decide

/-- Claim C8: a non-iterable `numbers` argument raises a type-mismatch
error naming the argument's type, and a sequence whose first non-text
element sits at index k raises a type-mismatch error naming position k and
that element's type; in both cases no result tuple is produced. -/
theorem C8_type_errors :
    (∀ (t : String) (rd mc : Bool),
        listalyzePy (PyInput.notIterable t) rd mc
          = Except.error (PyError.notIterableError t)) ∧
    (∀ (pre : List String) (t : String) (post : List PyObj) (rd mc : Bool),
        listalyzePy (PyInput.iter (pre.map PyObj.ustr ++ PyObj.other t :: post)) rd mc
          = Except.error (PyError.notUnicodeError t pre.length)) ∧
    listalyzePy (PyInput.iter [PyObj.ustr "a", PyObj.other "int"]) true false
      = Except.error (PyError.notUnicodeError "int" 1) := by
  refine ⟨fun t rd mc => rfl, ?_, rfl⟩
  intro pre t post rd mc
  have hstep : listalyzePy (PyInput.iter (pre.map PyObj.ustr ++ PyObj.other t :: post)) rd mc
      = Except.map (fun strs => listalyze strs rd mc)
          (typeCheckFrom 0 (pre.map PyObj.ustr ++ PyObj.other t :: post)) := rfl
  rw [hstep, typeCheckFrom_first_bad]
  simp [Except.map]

/-- Claim C9: on any finite list of text elements `listalyze` returns a
normal result (no exception), and every data-level failure is reported as
a result tuple with numbering type `None` and `default_order = False`. -/
theorem C9_total_on_text :
    (∀ (strs : List String) (rd mc : Bool),
        listalyzePy (PyInput.iter (strs.map PyObj.ustr)) rd mc
          = Except.ok (listalyze strs rd mc)) ∧
    (∀ (numbers : List String) (rd mc : Bool),
        (listalyze numbers rd mc).1 = none →
        listalyze numbers rd mc = (none, numbers.map Value.str, false)) := by
  constructor
  · intro strs rd mc
    have hstep : listalyzePy (PyInput.iter (strs.map PyObj.ustr)) rd mc
        = Except.map (fun l => listalyze l rd mc) (typeCheckFrom 0 (strs.map PyObj.ustr)) := rfl
    rw [hstep, typeCheckFrom_all_ustr]
    rfl
  · intro numbers rd mc h
    cases hn : normalizeList (if rd then requireDotStrip else stripOptionalDot)
        (numbers.map pyStrip) with
    | none => exact listalyze_norm_none hn
    | some stripped =>
      cases hr : resolveScheme mc (intersectAll stripped) with
      | none => exact listalyze_resolve_none hn hr
      | some scheme =>
        rw [listalyze_resolve_some hn hr] at h
        simp at h


/-- Claim C2 (amended): on every input with a resolved scheme, each value
is an integer at least 0; when the reported scheme is alphabetic
(`lower-alpha` or `upper-alpha`) each value is at least 1.  The label
`u'0'` converts to 0 under `decimal`, so 0 is the sharp general bound. -/
theorem C2_values_nonneg :
    (∀ (numbers : List String) (rd mc : Bool) (scheme : String) (vals : List Value) (d : Bool),
        listalyze numbers rd mc = (some scheme, vals, d) →
        (∀ v ∈ vals, ∃ n : Int, v = Value.int n ∧ 0 ≤ n) ∧
        ((scheme = "lower-alpha" ∨ scheme = "upper-alpha") →
          ∀ v ∈ vals, ∃ n : Int, v = Value.int n ∧ 1 ≤ n)) ∧
    listalyze ["b."] true false = (some "lower-alpha", [Value.int 2], false) := by
  refine ⟨?_, by decide⟩
  intro numbers rd mc scheme vals d h
  obtain ⟨stripped, raw, hn, hr, hs, hv, hd⟩ := listalyze_inv h
  have hne := stripped_ne_empty hn
  rcases resolveScheme_some hr with ⟨hraw, hflag⟩ | ⟨hraw, hflag⟩ | ⟨hraw, hflag⟩ | ⟨hraw, hflag⟩
  · -- decimal
    subst hraw
    rw [intersectAll_decimal] at hflag
    have hfits := List.all_eq_true.mp hflag
    have hconv : scheme_converters "decimal" = convert_decimal := rfl
    rw [hconv] at hv
    subst hv
    constructor
    · exact vals_bound fun s hsm => convert_decimal_nonneg (by simpa using hfits s hsm)
    · intro hcase
      rw [hs] at hcase
      rcases hcase with hcase | hcase <;> exact absurd hcase (by decide)
  · -- lower-alpha
    subst hraw
    rw [intersectAll_lower] at hflag
    have hfits := List.all_eq_true.mp hflag
    have hconv : scheme_converters "lower-alpha" = convert_lower_alpha := rfl
    rw [hconv] at hv
    subst hv
    have hone : ∀ v ∈ (stripped.map convert_lower_alpha).map Value.int,
        ∃ n : Int, v = Value.int n ∧ 1 ≤ n :=
      vals_bound fun s hsm =>
        convert_lower_alpha_pos (hne s hsm) (by simpa using hfits s hsm)
    constructor
    · intro v hv'
      obtain ⟨n, hn', hb⟩ := hone v hv'
      exact ⟨n, hn', by omega⟩
    · intro _
      exact hone
  · -- upper-alpha
    subst hraw
    rw [intersectAll_upper] at hflag
    have hfits := List.all_eq_true.mp hflag
    have hconv : scheme_converters "upper-alpha" = convert_upper_alpha := rfl
    rw [hconv] at hv
    subst hv
    have hone : ∀ v ∈ (stripped.map convert_upper_alpha).map Value.int,
        ∃ n : Int, v = Value.int n ∧ 1 ≤ n :=
      vals_bound fun s hsm =>
        convert_upper_alpha_pos (hne s hsm) (by simpa using hfits s hsm)
    constructor
    · intro v hv'
      obtain ⟨n, hn', hb⟩ := hone v hv'
      exact ⟨n, hn', by omega⟩
    · intro _
      exact hone
  · -- mixed-alpha
    subst hraw
    rw [intersectAll_mixed] at hflag
    have hfits := List.all_eq_true.mp hflag
    have hconv : scheme_converters "mixed-alpha" = convert_mixed_alpha := rfl
    rw [hconv] at hv
    subst hv
    have hone : ∀ v ∈ (stripped.map convert_mixed_alpha).map Value.int,
        ∃ n : Int, v = Value.int n ∧ 1 ≤ n :=
      vals_bound fun s hsm =>
        convert_mixed_alpha_pos (hne s hsm) (by simpa using hfits s hsm)
    constructor
    · intro v hv'
      obtain ⟨n, hn', hb⟩ := hone v hv'
      exact ⟨n, hn', by omega⟩
    · intro _
      exact hone


/-- Claim C7: with `require_dot = True` any trimmed label shorter than two
characters or not ending in a dot fails the whole inference with the
no-scheme result, and otherwise exactly the one trailing dot is stripped
from every label; with `require_dot = False` a trailing dot is stripped
when present, and a label empty before stripping or emptied by it fails
the whole inference.  The last two conjuncts are the source's own test. -/
theorem C7_dot_policy :
    (∀ (numbers : List String) (mc : Bool),
        (∃ l ∈ numbers.map pyStrip, l.length < 2 ∨ lastCharD l ≠ '.') →
        listalyze numbers true mc = (none, numbers.map Value.str, false)) ∧
    (∀ (ls ls' : List String), normalizeList requireDotStrip ls = some ls' →
        ls' = ls.map dropLastStr) ∧
    (∀ (numbers : List String) (mc : Bool),
        (∃ l ∈ numbers.map pyStrip, l = "" ∨ l = ".") →
        listalyze numbers false mc = (none, numbers.map Value.str, false)) ∧
    (∀ l : String, l ≠ "" → l ≠ "." →
        stripOptionalDot l = some (if lastCharD l = '.' then dropLastStr l else l)) ∧
    listalyze ["1.", "2"] true false = (none, [Value.str "1.", Value.str "2"], false) ∧
    listalyze ["1.", "2"] false false = (some "decimal", [Value.int 1, Value.int 2], true) := by
  refine ⟨?_, ?_, ?_, ?_, by decide, by decide⟩
  · rintro numbers mc ⟨l, hl, hcond⟩
    apply listalyze_norm_none
    apply normalizeList_none
    refine ⟨l, by simpa using hl, ?_⟩
    show requireDotStrip l = none
    unfold requireDotStrip
    rw [if_pos hcond]
  · intro ls ls' h
    exact normalizeList_some_map (fun s t ht => (requireDotStrip_some ht).1) h
  · rintro numbers mc ⟨l, hl, hcond⟩
    apply listalyze_norm_none
    apply normalizeList_none
    refine ⟨l, by simpa using hl, ?_⟩
    show stripOptionalDot l = none
    rcases hcond with hcond | hcond <;> subst hcond <;> rfl
  · intro l hne hnedot
    have hlen : ¬ l.length < 1 := by
      have := data_ne_empty hne
      have h0 : l.data.length ≠ 0 := by
        intro h0
        exact this (List.length_eq_zero.mp h0)
      have hl : l.length = l.data.length := rfl
      omega
    unfold stripOptionalDot
    rw [if_neg hlen]
    simp only []
    by_cases hdot : lastCharD l = '.'
    · rw [if_pos hdot]
      have hds : dropLastStr l ≠ "" := by
        intro he
        apply hnedot
        have hdl : l.data.dropLast = [] := congrArg String.data he
        have hlen1 : l.data.length - 1 = 0 := by
          rw [← List.length_dropLast, hdl]
          rfl
        have h0 : l.data.length ≠ 0 := by
          intro h0
          exact data_ne_empty hne (List.length_eq_zero.mp h0)
        have h1 : l.data.length = 1 := by omega
        obtain ⟨c, hc⟩ := List.length_eq_one.mp h1
        have hcd : lastCharD l = c := by
          unfold lastCharD
          rw [hc]
          rfl
        apply String.ext
        rw [hc]
        rw [hcd] at hdot
        rw [hdot]
      rw [if_neg hds]
    · rw [if_neg hdot]
      rw [if_neg hne]


/-- Claim C10: whenever a scheme is resolved, the returned default-order
flag is true exactly when every converted value equals its 1-based
position (the spec's `[1, 2, 4]` example yields false), and the
default-order detection of the conversion loop holds trivially on an
empty label list (on an empty input the analysis resolves no scheme, so
the vacuous-truth contract is stated on the conversion stage itself). -/
theorem C10_default_order :
    (∀ (numbers : List String) (rd mc : Bool) (scheme : String) (vals : List Value) (d : Bool),
        listalyze numbers rd mc = (some scheme, vals, d) →
        (d = true ↔ vals = (List.range vals.length).map (fun (i : Nat) => Value.int ((i : Int) + 1)))) ∧
    (∀ conv : String → Int, convertAll conv [] = ([], true)) ∧
    listalyze ["1", "2", "4"] false false
      = (some "decimal", [Value.int 1, Value.int 2, Value.int 4], false) := by
  refine ⟨?_, fun conv => rfl, by decide⟩
  intro numbers rd mc scheme vals d h
  obtain ⟨stripped, raw, hn, hr, hs, hv, hd⟩ := listalyze_inv h
  subst hv
  subst hd
  rw [List.length_map]
  rw [defaultOrderFrom_iff]
  have hz : (List.range (stripped.map (scheme_converters raw)).length).map
        (fun i => ((0 + i : Nat) : Int) + 1)
      = (List.range (stripped.map (scheme_converters raw)).length).map
        (fun (i : Nat) => (i : Int) + 1) := by
    apply List.map_congr_left
    intro i _
    norm_num
  rw [hz]
  have hinj : Function.Injective Value.int := by
    intro a b hab
    injection hab
  have hmm : ((List.range (stripped.map (scheme_converters raw)).length).map
        (fun (i : Nat) => (i : Int) + 1)).map Value.int
      = (List.range (stripped.map (scheme_converters raw)).length).map
        (fun (i : Nat) => Value.int ((i : Int) + 1)) := by
    rw [List.map_map]
    rfl
  constructor
  · intro he
    conv_lhs => rw [he]
    exact hmm
  · intro he
    exact List.map_injective_iff.mpr hinj (he.trans hmm.symm)


end Listalyze
